import Mathlib

/-!
Verification of the Stremio addon manifest validator.

The repository's core is `src/lib/validation.ts` (`validate`, a two-pass
schema check built on the zod schema library), wrapped by React event
handlers (`handleValidate`, `handleDrop`, `handleShare`, the load-time
share-link decoding) in the application component.  This file embeds the
JSON data model, the schema-matching semantics, the result shaping and the
event handlers, and proves the spec's claims about them.

External code that is not part of the repository (the zod schema library,
the `@stremio-addon/zod` manifest schema, the lz-string codec, the
`JSON.parse` / `JSON.stringify` builtins and the network) is modelled from
the spec and from the documented behaviour of those libraries; each such
definition says so in its doc comment.
-/

namespace Stremio

mutual
/-- A parsed JSON value (the argument type of `validate`, `unknown` in the
source).  Numbers are modelled as integers: no claim depends on float
semantics.  `Json`, `JsonList` and `JsonProps` are mutually inductive so
that the parsing functions below are structurally recursive and reduce in
the kernel. -/
inductive Json where
  | null : Json
  | bool : Bool → Json
  | num : Int → Json
  | str : String → Json
  | arr : JsonList → Json
  | obj : JsonProps → Json
inductive JsonList where
  | nil : JsonList
  | cons : Json → JsonList → JsonList
inductive JsonProps where
  | nil : JsonProps
  | cons : String → Json → JsonProps → JsonProps
end

end Stremio

namespace Stremio

/-- Builds a `JsonList` from a list literal. -/
def JsonList.ofList : List Json → JsonList
  | [] => .nil
  | x :: xs => .cons x (JsonList.ofList xs)

/-- Builds a `JsonProps` from a list literal. -/
def JsonProps.ofList : List (String × Json) → JsonProps
  | [] => .nil
  | (k, v) :: rest => .cons k v (JsonProps.ofList rest)

/-- The keys of a JSON object, in order (the `for key in data` iteration
of zod's unknown-key scan). -/
def keysOf : JsonProps → List String
  | .nil => []
  | .cons k _ rest => k :: keysOf rest

/-- First-match key lookup in a JSON object (JavaScript property access). -/
def lookupProp : JsonProps → String → Option Json
  | .nil, _ => none
  | .cons k v rest, n => if k = n then some v else lookupProp rest n

/-- Whether a JSON object has a key. -/
def hasKey (kvs : JsonProps) (n : String) : Bool :=
  (lookupProp kvs n).isSome

/-- An element of a zod issue path: an object key or an array index
(zod paths are arrays of strings and numbers). -/
inductive PathElem where
  | key : String → PathElem
  | idx : Nat → PathElem
deriving DecidableEq

/-- One zod issue: a stable category code, a field path (empty meaning the
whole document), a message, and for `unrecognized_keys` issues the list of
offending keys. -/
structure Issue where
  code : String
  path : List PathElem
  message : String
  keys : List String
deriving DecidableEq

/-- A zod error: the ordered list of issues (`ZodError.issues`). -/
structure ZodError where
  issues : List Issue
deriving DecidableEq

/-- Modelled from the spec: the zod schema language, restricted to the
constructs the manifest schema uses — string, number and boolean
primitives, arrays, and object shapes whose fields are required or
optional.  The zod library itself is an external dependency, not part of
this repository. -/
inductive SType where
  | str : SType
  | num : SType
  | boolean : SType
  | array : SType → SType
  | object : List (String × Bool × SType) → SType

/-- First-match field lookup in an object shape: returns the field's
optional flag and type. -/
def lookupField : List (String × Bool × SType) → String → Option (Bool × SType)
  | [], _ => none
  | (n, opt, t) :: rest, f => if n = f then some (opt, t) else lookupField rest f

/-- The zod type name of a JSON value, used in `invalid_type` messages. -/
def typeName : Json → String
  | .null => "null"
  | .bool _ => "boolean"
  | .num _ => "number"
  | .str _ => "string"
  | .arr _ => "array"
  | .obj _ => "object"

/-- An `invalid_type` issue at the current location. -/
def mkInvalidType (expected : String) (j : Json) : Issue :=
  { code := "invalid_type", path := [],
    message := "Expected " ++ expected ++ ", received " ++ typeName j,
    keys := [] }

/-- The issue zod reports for a missing required field. -/
def requiredIssue (n : String) : Issue :=
  { code := "invalid_type", path := [PathElem.key n], message := "Required",
    keys := [] }

/-- Re-roots an issue produced below an object key or array index. -/
def prependPath (e : PathElem) (i : Issue) : Issue :=
  { i with path := e :: i.path }

/-- The `unrecognized_keys` issue the strict pass reports for one
undeclared field: each unknown field surfaces as one issue, with a path
identifying the field. -/
def unrecognizedKeyIssue (k : String) : Issue :=
  { code := "unrecognized_keys", path := [PathElem.key k],
    message := "Unrecognized key: " ++ k, keys := [k] }

/-- The `Required` issues for the declared non-optional fields absent from
the input object. -/
def missingIssues (fs : List (String × Bool × SType)) (kvs : JsonProps) : List Issue :=
  fs.filterMap (fun f =>
    if f.2.1 then none
    else if hasKey kvs f.1 then none
    else some (requiredIssue f.1))

mutual
/-- Modelled from the spec: zod's permissive (non-strict) parse.  Returns
all collected issues (paths relative to the current location) together
with the parsed output, in which undeclared object keys are stripped; the
parse succeeds exactly when the issue list is empty.  `parseList` parses
array elements (index-tagged paths), `parseProps` parses an object's
declared keys in input order. -/
def parseValue : SType → Json → List Issue × Json
  | SType.str, j =>
    match j with
    | .str s => ([], .str s)
    | _ => ([mkInvalidType "string" j], j)
  | SType.num, j =>
    match j with
    | .num n => ([], .num n)
    | _ => ([mkInvalidType "number" j], j)
  | SType.boolean, j =>
    match j with
    | .bool b => ([], .bool b)
    | _ => ([mkInvalidType "boolean" j], j)
  | SType.array t, j =>
    match j with
    | .arr xs =>
      let r := parseList t 0 xs
      (r.1, .arr r.2)
    | _ => ([mkInvalidType "array" j], j)
  | SType.object fs, j =>
    match j with
    | .obj kvs =>
      let r := parseProps fs kvs
      (missingIssues fs kvs ++ r.1, .obj r.2)
    | _ => ([mkInvalidType "object" j], j)

/-- See `parseValue`. -/
def parseList : SType → Nat → JsonList → List Issue × JsonList
  | _, _, .nil => ([], .nil)
  | t, i, .cons x xs =>
    let r := parseValue t x
    let rest := parseList t (i + 1) xs
    (r.1.map (prependPath (PathElem.idx i)) ++ rest.1, .cons r.2 rest.2)

/-- See `parseValue`. -/
def parseProps : List (String × Bool × SType) → JsonProps → List Issue × JsonProps
  | _, .nil => ([], .nil)
  | fs, .cons k v kvs =>
    let rest := parseProps fs kvs
    match lookupField fs k with
    | some (_, t) =>
      let r := parseValue t v
      (r.1.map (prependPath (PathElem.key k)) ++ rest.1, .cons k r.2 rest.2)
    | none => rest
end

/-- `manifestSchema.safeParse`: succeeds with the (stripped) data when no
issue was collected, otherwise fails with a `ZodError` carrying the issue
list. -/
def safeParse (t : SType) (j : Json) : Except ZodError Json :=
  match parseValue t j with
  | ([], d) => Except.ok d
  | (i :: more, _) => Except.error ⟨i :: more⟩

mutual
/-- Modelled from the spec: the additional issues of the strict pass.
Strict mode rejects any field not explicitly declared, each unknown
field surfaces as one issue, and undeclared fields count at the top
level and nested: one `unrecognized_keys` issue per undeclared field of
every schema-matched object, through nested objects and array
elements. -/
def strictIssues : SType → Json → List Issue
  | SType.object fs, Json.obj kvs => strictIssuesProps fs kvs
  | SType.array t, Json.arr xs => strictIssuesList t 0 xs
  | _, _ => []
/-- See `strictIssues`. -/
def strictIssuesList : SType → Nat → JsonList → List Issue
  | _, _, JsonList.nil => []
  | t, i, JsonList.cons x xs =>
    (strictIssues t x).map (prependPath (PathElem.idx i)) ++
      strictIssuesList t (i + 1) xs
/-- See `strictIssues`. -/
def strictIssuesProps : List (String × Bool × SType) → JsonProps → List Issue
  | _, JsonProps.nil => []
  | fs, JsonProps.cons k v kvs =>
    (match lookupField fs k with
     | some (_, t) => (strictIssues t v).map (prependPath (PathElem.key k))
     | none => [unrecognizedKeyIssue k]) ++ strictIssuesProps fs kvs
end

/-- Modelled from the spec: `manifestSchema.strict().safeParse` — the
same shape match re-run in strict mode, which additionally rejects every
undeclared field, one issue each. -/
def strictSafeParse (t : SType) (j : Json) : Except ZodError Json :=
  match (parseValue t j).1 ++ strictIssues t j with
  | [] => Except.ok (parseValue t j).2
  | i :: more => Except.error ⟨i :: more⟩

end Stremio

namespace Stremio

example : parseValue SType.str (Json.str "a") = ([], Json.str "a") := rfl

example : safeParse (SType.object [("id", false, SType.str)])
    (Json.obj (JsonProps.ofList [("id", Json.str "x"), ("zz", Json.num 1)])) =
    Except.ok (Json.obj (JsonProps.ofList [("id", Json.str "x")])) := rfl

example : strictSafeParse (SType.object [("id", false, SType.str)])
    (Json.obj (JsonProps.ofList [("id", Json.str "x"), ("zz", Json.num 1)])) =
    Except.error ⟨[unrecognizedKeyIssue "zz"]⟩ := rfl

/-- Modelled from the spec: the shape of a catalog entry in the published
manifest schema (`@stremio-addon/zod`, an external package). -/
def catalogSchema : SType :=
  SType.object [("type", false, SType.str), ("id", false, SType.str),
                ("name", true, SType.str)]

/-- Modelled from the spec: the `behaviorHints` object of the published
manifest schema. -/
def behaviorHintsSchema : SType :=
  SType.object [("adult", true, SType.boolean),
                ("configurable", true, SType.boolean)]

/-- Modelled from the spec: the top-level fields of the published Stremio
manifest schema, which lives in the external `@stremio-addon/zod` package
and is not part of this repository.  The spec does not enumerate the
fields; this model uses the documented manifest shape (identifier,
version, name, description, resources, types, catalogs, behaviour
hints). -/
def manifestFields : List (String × Bool × SType) :=
  [("id", false, SType.str),
   ("version", false, SType.str),
   ("name", false, SType.str),
   ("description", true, SType.str),
   ("resources", false, SType.array SType.str),
   ("types", false, SType.array SType.str),
   ("catalogs", false, SType.array catalogSchema),
   ("behaviorHints", true, behaviorHintsSchema)]

/-- Modelled from the spec: the published manifest schema, a zod object
shape over `manifestFields`. -/
def manifestSchema : SType := SType.object manifestFields

/-- The result record returned by `validate` in `src/lib/validation.ts`:
`success` always present; `data` present on the success paths; `error`
present on the failure path; `warning` present on the
success-with-warnings path. -/
structure VResult where
  success : Bool
  data : Option Json
  error : Option ZodError
  warning : Option ZodError

/-- `validate` from `src/lib/validation.ts`: permissive `safeParse` first;
on success re-run the same shape in strict mode, attaching the strict
error as `warning` when only the strict pass fails. -/
def validate (manifest : Json) : VResult :=
  match safeParse manifestSchema manifest with
  | Except.ok d =>
    match strictSafeParse manifestSchema manifest with
    | Except.ok _ =>
      { success := true, data := some d, error := none, warning := none }
    | Except.error w =>
      { success := true, data := some d, error := none, warning := some w }
  | Except.error e =>
    { success := false, data := none, error := some e, warning := none }

/-- The older single-pass `validate` (the superseded version of
`src/lib/validation.ts`): it returns `manifestSchema.safeParse(manifest)`
directly, i.e. either success-with-data or failure-with-error, never a
warning. -/
def validateOld (manifest : Json) : VResult :=
  match safeParse manifestSchema manifest with
  | Except.ok d =>
    { success := true, data := some d, error := none, warning := none }
  | Except.error e =>
    { success := false, data := none, error := some e, warning := none }

/-- A manifest that conforms to the schema with no extra fields. -/
def goodKvs : JsonProps := JsonProps.ofList
  [("id", Json.str "org.example.addon"),
   ("version", Json.str "1.0.0"),
   ("name", Json.str "Example"),
   ("resources", Json.arr JsonList.nil),
   ("types", Json.arr JsonList.nil),
   ("catalogs", Json.arr JsonList.nil)]

/-- A conforming manifest with two undeclared top-level fields (`foo`,
`bar`) and one undeclared nested field (`behaviorHints.extra1`). -/
def extraKvs : JsonProps := JsonProps.ofList
  [("id", Json.str "org.example.addon"),
   ("version", Json.str "1.0.0"),
   ("name", Json.str "Example"),
   ("resources", Json.arr JsonList.nil),
   ("types", Json.arr JsonList.nil),
   ("catalogs", Json.arr JsonList.nil),
   ("behaviorHints", Json.obj (JsonProps.ofList
      [("adult", Json.bool false), ("extra1", Json.bool true)])),
   ("foo", Json.num 1),
   ("bar", Json.num 2)]

/-- The data the permissive pass produces for `extraKvs`: the undeclared
fields are stripped. -/
def extraData : JsonProps := JsonProps.ofList
  [("id", Json.str "org.example.addon"),
   ("version", Json.str "1.0.0"),
   ("name", Json.str "Example"),
   ("resources", Json.arr JsonList.nil),
   ("types", Json.arr JsonList.nil),
   ("catalogs", Json.arr JsonList.nil),
   ("behaviorHints", Json.obj (JsonProps.ofList
      [("adult", Json.bool false)]))]

/-- A manifest missing the required `id` field. -/
def badKvs : JsonProps := JsonProps.ofList
  [("version", Json.str "1.0.0"),
   ("name", Json.str "Example"),
   ("resources", Json.arr JsonList.nil),
   ("types", Json.arr JsonList.nil),
   ("catalogs", Json.arr JsonList.nil)]

example : validate (Json.obj goodKvs) =
    { success := true, data := some (Json.obj goodKvs), error := none,
      warning := none } := rfl

example : validate (Json.obj extraKvs) =
    { success := true, data := some (Json.obj extraData), error := none,
      warning := some ⟨[prependPath (PathElem.key "behaviorHints")
                          (unrecognizedKeyIssue "extra1"),
                        unrecognizedKeyIssue "foo",
                        unrecognizedKeyIssue "bar"]⟩ } := rfl

example : validate (Json.obj badKvs) =
    { success := false, data := none,
      error := some ⟨[requiredIssue "id"]⟩, warning := none } := rfl

example : validate (Json.str "nope") =
    { success := false, data := none,
      error := some ⟨[mkInvalidType "object" (Json.str "nope")]⟩,
      warning := none } := rfl

/-- A successful `safeParse` means the permissive parse collected no
issues and produced the returned data. -/
theorem safeParse_ok {t : SType} {j d : Json}
    (h : safeParse t j = Except.ok d) : parseValue t j = ([], d) := by
  unfold safeParse at h
  rcases hpv : parseValue t j with ⟨iss, dd⟩
  rw [hpv] at h
  cases iss with
  | nil => simp only [Except.ok.injEq] at h; rw [h]
  | cons i more => simp at h

/-- Conversely, an issue-free permissive parse makes `safeParse`
succeed. -/
theorem safeParse_of_parse {t : SType} {j d : Json}
    (h : parseValue t j = ([], d)) : safeParse t j = Except.ok d := by
  unfold safeParse
  rw [h]

/-- A permissive parse with at least one issue makes `safeParse` fail
with exactly that issue list. -/
theorem safeParse_of_issues {t : SType} {j d : Json} {i : Issue}
    {more : List Issue} (h : parseValue t j = (i :: more, d)) :
    safeParse t j = Except.error ⟨i :: more⟩ := by
  unfold safeParse
  rw [h]

/-- C1: for every parsed JSON value, `validate` dispatches on the two
passes exactly as the spec says: a failed permissive match gives Failure
with the permissive issue list; permissive and strict success give
Success with the parsed data; strict-only failure gives
Success-with-warnings carrying the strict issue list. -/
theorem validate_two_pass_dispatch (j : Json) :
    (∀ e, safeParse manifestSchema j = Except.error e →
      validate j =
        { success := false, data := none, error := some e, warning := none })
  ∧ (∀ d, safeParse manifestSchema j = Except.ok d →
      (∀ x, strictSafeParse manifestSchema j = Except.ok x →
        validate j =
          { success := true, data := some d, error := none, warning := none })
    ∧ (∀ w, strictSafeParse manifestSchema j = Except.error w →
        validate j =
          { success := true, data := some d, error := none,
            warning := some w })) := by
  refine ⟨fun e he => ?_, fun d hd => ⟨fun x hx => ?_, fun w hw => ?_⟩⟩
  · unfold validate; rw [he]
  · unfold validate; rw [hd, hx]
  · unfold validate; rw [hd, hw]

/-- Witness for C1: all three dispatch branches at concrete inputs — a
non-object document, a fully conforming manifest, and a conforming
manifest with extra fields. -/
theorem validate_two_pass_dispatch_witness :
    validate (Json.str "nope") =
      { success := false, data := none,
        error := some ⟨[mkInvalidType "object" (Json.str "nope")]⟩,
        warning := none }
  ∧ validate (Json.obj goodKvs) =
      { success := true, data := some (Json.obj goodKvs), error := none,
        warning := none }
  ∧ validate (Json.obj extraKvs) =
      { success := true, data := some (Json.obj extraData), error := none,
        warning := some ⟨[prependPath (PathElem.key "behaviorHints")
                            (unrecognizedKeyIssue "extra1"),
                          unrecognizedKeyIssue "foo",
                          unrecognizedKeyIssue "bar"]⟩ } :=
  ⟨(validate_two_pass_dispatch (Json.str "nope")).1 _ rfl,
   ((validate_two_pass_dispatch (Json.obj goodKvs)).2
      (Json.obj goodKvs) rfl).1 (Json.obj goodKvs) rfl,
   ((validate_two_pass_dispatch (Json.obj extraKvs)).2
      (Json.obj extraData) rfl).2
     ⟨[prependPath (PathElem.key "behaviorHints")
         (unrecognizedKeyIssue "extra1"),
       unrecognizedKeyIssue "foo",
       unrecognizedKeyIssue "bar"]⟩ rfl⟩

/-- C9: shape invariant of `validate`'s result: `data` is present exactly
on success, `error` exactly on failure, and `warning` only on success. -/
theorem validate_result_shape (j : Json) :
    ((validate j).success = true ↔ ((validate j).data).isSome = true)
  ∧ ((validate j).success = false ↔ ((validate j).error).isSome = true)
  ∧ (((validate j).warning).isSome = true → (validate j).success = true) := by
  rcases hsp : safeParse manifestSchema j with e | d
  · simp [validate, hsp]
  · rcases hst : strictSafeParse manifestSchema j with w | x <;>
      simp [validate, hsp, hst]

/-- Witness for C9 at a concrete input with a warning present. -/
theorem validate_result_shape_witness :
    (validate (Json.obj extraKvs)).success = true :=
  (validate_result_shape (Json.obj extraKvs)).2.2 rfl

/-- C10: the newer two-pass `validate` agrees with the older single-pass
`validate` on the success flag, the data and the error; the old version
never produces a warning, and the new one adds a warning only to success
results. -/
theorem validate_refines_validateOld (j : Json) :
    (validate j).success = (validateOld j).success
  ∧ (validate j).data = (validateOld j).data
  ∧ (validate j).error = (validateOld j).error
  ∧ (validateOld j).warning = none
  ∧ (((validate j).warning).isSome = true → (validate j).success = true) := by
  rcases hsp : safeParse manifestSchema j with e | d
  · simp [validate, validateOld, hsp]
  · rcases hst : strictSafeParse manifestSchema j with w | x <;>
      simp [validate, validateOld, hsp, hst]

/-- Witness for C10 at a concrete input whose strict pass fails. -/
theorem validate_refines_validateOld_witness :
    (validate (Json.obj extraKvs)).success = true
  ∧ (validateOld (Json.obj extraKvs)).warning = none :=
  ⟨(validate_refines_validateOld (Json.obj extraKvs)).2.2.2.2 rfl,
   (validate_refines_validateOld (Json.obj extraKvs)).2.2.2.1⟩

mutual
/-- The quantity C2 compares the warning count against: the number of
fields of the input that are not declared in the schema, counted at the
top level and recursively inside every schema-matched object or array. -/
def undeclaredCount : SType → Json → Nat
  | SType.object fs, Json.obj kvs => undeclaredProps fs kvs
  | SType.array t, Json.arr xs => undeclaredList t xs
  | _, _ => 0
/-- See `undeclaredCount`. -/
def undeclaredList : SType → JsonList → Nat
  | _, JsonList.nil => 0
  | t, JsonList.cons x xs => undeclaredCount t x + undeclaredList t xs
/-- See `undeclaredCount`. -/
def undeclaredProps : List (String × Bool × SType) → JsonProps → Nat
  | _, JsonProps.nil => 0
  | fs, JsonProps.cons k v kvs =>
    (match lookupField fs k with
     | some (_, t) => undeclaredCount t v
     | none => 1) + undeclaredProps fs kvs
end

example : undeclaredCount manifestSchema (Json.obj extraKvs) = 3 := rfl

mutual
/-- The strict pass produces exactly one issue per undeclared field. -/
theorem strictIssues_length : ∀ (t : SType) (j : Json),
    (strictIssues t j).length = undeclaredCount t j
  | SType.object fs, Json.obj kvs => strictIssuesProps_length fs kvs
  | SType.array t, Json.arr xs => strictIssuesList_length t 0 xs
  | SType.str, j => by cases j <;> rfl
  | SType.num, j => by cases j <;> rfl
  | SType.boolean, j => by cases j <;> rfl
  | SType.array t, Json.null => rfl
  | SType.array t, Json.bool b => rfl
  | SType.array t, Json.num n => rfl
  | SType.array t, Json.str s => rfl
  | SType.array t, Json.obj kvs => rfl
  | SType.object fs, Json.null => rfl
  | SType.object fs, Json.bool b => rfl
  | SType.object fs, Json.num n => rfl
  | SType.object fs, Json.str s => rfl
  | SType.object fs, Json.arr xs => rfl
/-- See `strictIssues_length`. -/
theorem strictIssuesList_length : ∀ (t : SType) (i : Nat) (xs : JsonList),
    (strictIssuesList t i xs).length = undeclaredList t xs
  | _, _, JsonList.nil => rfl
  | t, i, JsonList.cons x xs => by
    simp only [strictIssuesList, undeclaredList, List.length_append,
      List.length_map]
    rw [strictIssues_length t x, strictIssuesList_length t (i + 1) xs]
/-- See `strictIssues_length`. -/
theorem strictIssuesProps_length :
    ∀ (fs : List (String × Bool × SType)) (kvs : JsonProps),
      (strictIssuesProps fs kvs).length = undeclaredProps fs kvs
  | _, JsonProps.nil => rfl
  | fs, JsonProps.cons k v kvs => by
    simp only [strictIssuesProps, undeclaredProps, List.length_append]
    rw [strictIssuesProps_length fs kvs]
    cases hlk : lookupField fs k with
    | some p =>
      obtain ⟨o, t⟩ := p
      simp only [List.length_map]
      rw [strictIssues_length t v]
    | none => rfl
end

/-- C2: for every input that conforms to the manifest schema and
contains at least one undeclared field, top level or nested, `validate`
returns Success-with-warnings and the warning issue count equals the
number of undeclared fields. -/
theorem strict_warning_counts_undeclared (j d : Json)
    (h : safeParse manifestSchema j = Except.ok d)
    (hu : 0 < undeclaredCount manifestSchema j) :
    ∃ w, validate j =
        { success := true, data := some d, error := none, warning := some w }
      ∧ w.issues.length = undeclaredCount manifestSchema j := by
  have hp : parseValue manifestSchema j = ([], d) := safeParse_ok h
  have hlen := strictIssues_length manifestSchema j
  rcases hsi : strictIssues manifestSchema j with _ | ⟨i, more⟩
  · rw [hsi] at hlen
    simp only [List.length_nil] at hlen
    omega
  · rw [hsi] at hlen
    have hst : strictSafeParse manifestSchema j =
        Except.error ⟨i :: more⟩ := by
      unfold strictSafeParse
      rw [hp, hsi]
      rfl
    refine ⟨⟨i :: more⟩, ?_, hlen⟩
    unfold validate
    rw [h, hst]

/-- Witness for C2 at a conforming manifest with three undeclared fields
(two top-level, one nested inside `behaviorHints`). -/
theorem strict_warning_counts_undeclared_witness :
    ∃ w, validate (Json.obj extraKvs) =
        { success := true, data := some (Json.obj extraData), error := none,
          warning := some w }
      ∧ w.issues.length = undeclaredCount manifestSchema (Json.obj extraKvs) :=
  strict_warning_counts_undeclared (Json.obj extraKvs) (Json.obj extraData)
    rfl (by decide)

/-- Spine recursion principle for `JsonProps` (recursion on the key list
only, not into the values), used by proofs below. -/
def JsonProps.recSpine {motive : JsonProps → Sort u}
    (nil : motive JsonProps.nil)
    (cons : ∀ k v rest, motive rest → motive (JsonProps.cons k v rest)) :
    ∀ kvs, motive kvs
  | JsonProps.nil => nil
  | JsonProps.cons k v rest => cons k v rest (JsonProps.recSpine nil cons rest)

/-- A failed permissive parse carries exactly the collected issue list. -/
theorem safeParse_error_of_issues {t : SType} {j : Json} {i : Issue}
    {more : List Issue} (h : (parseValue t j).1 = i :: more) :
    safeParse t j = Except.error ⟨i :: more⟩ := by
  unfold safeParse
  rcases hpv : parseValue t j with ⟨iss, dd⟩
  rw [hpv] at h
  simp only at h
  rw [h]

/-- The permissive parse of an object: the missing-required issues
followed by the per-key issues, and the stripped output object. -/
theorem parseValue_obj (fs : List (String × Bool × SType)) (kvs : JsonProps) :
    parseValue (SType.object fs) (Json.obj kvs) =
      (missingIssues fs kvs ++ (parseProps fs kvs).1,
       Json.obj (parseProps fs kvs).2) := rfl

/-- The issues an object parse collects at one input key: the key's own
sub-issues (re-rooted under the key) when the key is declared, nothing
when it is undeclared (zod strips it), followed by the remaining keys'
issues. -/
theorem parseProps_cons_issues (fs : List (String × Bool × SType))
    (k : String) (v : Json) (kvs : JsonProps) :
    (parseProps fs (JsonProps.cons k v kvs)).1 =
      (match lookupField fs k with
       | some (_, t) => (parseValue t v).1.map (prependPath (PathElem.key k))
       | none => []) ++ (parseProps fs kvs).1 := by
  simp only [parseProps]
  cases hlk : lookupField fs k with
  | some p => obtain ⟨o, t⟩ := p; rfl
  | none => rfl

/-- A successful shape lookup comes from a field of the shape. -/
theorem lookupField_mem {fs : List (String × Bool × SType)} {f : String}
    {opt : Bool} {t : SType} (h : lookupField fs f = some (opt, t)) :
    (f, opt, t) ∈ fs := by
  induction fs with
  | nil => simp [lookupField] at h
  | cons g gs ih =>
    obtain ⟨n, o, ty⟩ := g
    simp only [lookupField] at h
    split at h
    · rename_i hn
      simp only [Option.some.injEq, Prod.mk.injEq] at h
      obtain ⟨ho, hty⟩ := h
      subst hn; subst ho; subst hty
      exact List.mem_cons_self _ _
    · exact List.mem_cons_of_mem _ (ih h)

/-- A required field absent from the input contributes its `Required`
issue to the missing-field scan. -/
theorem requiredIssue_mem_missing {fs : List (String × Bool × SType)}
    {kvs : JsonProps} {f : String} {t : SType}
    (hf : (f, false, t) ∈ fs) (hk : lookupProp kvs f = none) :
    requiredIssue f ∈ missingIssues fs kvs := by
  unfold missingIssues
  refine List.mem_filterMap.mpr ⟨(f, false, t), hf, ?_⟩
  simp [hasKey, hk]

/-- A declared field whose value fails its sub-parse contributes a
re-rooted issue to the object's per-key issues. -/
theorem violation_mem_parseProps {fs : List (String × Bool × SType)}
    {f : String} {opt : Bool} {t : SType} {v : Json} {i0 : Issue}
    {more : List Issue}
    (hfield : lookupField fs f = some (opt, t))
    (hp : (parseValue t v).1 = i0 :: more) :
    ∀ kvs : JsonProps, lookupProp kvs f = some v →
      prependPath (PathElem.key f) i0 ∈ (parseProps fs kvs).1 := by
  intro kvs
  induction kvs using JsonProps.recSpine with
  | nil => intro hv; simp [lookupProp] at hv
  | cons k w rest ih =>
    intro hv
    simp only [lookupProp] at hv
    rw [parseProps_cons_issues]
    by_cases hk : k = f
    · subst hk
      rw [if_pos rfl] at hv
      simp only [Option.some.injEq] at hv
      subst hv
      rw [hfield]
      refine List.mem_append_left _ ?_
      show prependPath (PathElem.key k) i0 ∈
        (parseValue t w).1.map (prependPath (PathElem.key k))
      rw [hp]
      exact List.mem_map_of_mem _ (List.mem_cons_self _ _)
    · rw [if_neg hk] at hv
      exact List.mem_append_right _ (ih hv)

/-- C3: for every input object violating a required-field constraint
(a declared required field is absent) or a type constraint (a declared
field's value fails its sub-parse), `validate` returns Failure and the
error's issue list contains an issue whose path starts at the offending
field. -/
theorem failure_identifies_offending_field (kvs : JsonProps) (f : String)
    (h : (∃ t, lookupField manifestFields f = some (false, t)
            ∧ lookupProp kvs f = none)
       ∨ (∃ opt t v, lookupField manifestFields f = some (opt, t)
            ∧ lookupProp kvs f = some v ∧ (parseValue t v).1 ≠ [])) :
    (validate (Json.obj kvs)).success = false
  ∧ ∃ e, (validate (Json.obj kvs)).error = some e
      ∧ ∃ i ∈ e.issues, i.path.head? = some (PathElem.key f) := by
  have hex : ∃ i ∈ (parseValue manifestSchema (Json.obj kvs)).1,
      i.path.head? = some (PathElem.key f) := by
    rcases h with ⟨t, hfield, hmiss⟩ | ⟨opt, t, v, hfield, hv, hiss⟩
    · refine ⟨requiredIssue f, ?_, rfl⟩
      rw [manifestSchema, parseValue_obj]
      exact List.mem_append_left _
        (requiredIssue_mem_missing (lookupField_mem hfield) hmiss)
    · rcases hi0 : (parseValue t v).1 with _ | ⟨i0, more⟩
      · exact absurd hi0 hiss
      · refine ⟨prependPath (PathElem.key f) i0, ?_, rfl⟩
        rw [manifestSchema, parseValue_obj]
        exact List.mem_append_right _
          (violation_mem_parseProps hfield hi0 kvs hv)
  obtain ⟨i, hmem, hpath⟩ := hex
  rcases hiss : (parseValue manifestSchema (Json.obj kvs)).1 with _ | ⟨a, rest⟩
  · rw [hiss] at hmem; simp at hmem
  · have hsp := safeParse_error_of_issues hiss
    rw [hiss] at hmem
    unfold validate
    rw [hsp]
    exact ⟨rfl, ⟨a :: rest⟩, rfl, i, hmem, hpath⟩

/-- Witness for C3: a manifest missing the required `id` field. -/
theorem failure_identifies_offending_field_witness :
    (validate (Json.obj badKvs)).success = false
  ∧ ∃ e, (validate (Json.obj badKvs)).error = some e
      ∧ ∃ i ∈ e.issues, i.path.head? = some (PathElem.key "id") :=
  failure_identifies_offending_field badKvs "id"
    (Or.inl ⟨SType.str, rfl, rfl⟩)

/-- The decimal digits of `n`, least significant first ( `[]` for `0`);
`fuel` bounds the recursion and any `fuel ≥ n` is enough. -/
def natLEAux : Nat → Nat → List Char
  | _, 0 => []
  | 0, _ + 1 => []
  | fuel + 1, n + 1 =>
    Nat.digitChar ((n + 1) % 10) :: natLEAux fuel ((n + 1) / 10)

/-- The decimal digits of `n`, least significant first. -/
def natLE (n : Nat) : List Char := natLEAux n n

/-- The value of a decimal digit character. -/
def charVal (c : Char) : Option Nat :=
  if c = '0' then some 0 else if c = '1' then some 1
  else if c = '2' then some 2 else if c = '3' then some 3
  else if c = '4' then some 4 else if c = '5' then some 5
  else if c = '6' then some 6 else if c = '7' then some 7
  else if c = '8' then some 8 else if c = '9' then some 9
  else none

/-- Reads one digit run terminated by `-` from the front of the stream,
returning its value and the remaining stream. -/
def parseChunk : List Char → Option (Nat × List Char)
  | [] => none
  | c :: rest =>
    if c = '-' then some (0, rest)
    else
      match charVal c with
      | some d =>
        match parseChunk rest with
        | some (v, rs) => some (d + 10 * v, rs)
        | none => none
      | none => none

/-- Modelled from the spec: the encoding side of the share-link codec
(the repository uses the external lz-string library's
`compressToEncodedURIComponent`; the spec's contract for it is only that
decoding inverts encoding).  Each character's code point becomes a
`-`-terminated decimal digit run. -/
def encodeChars : List Char → List Char
  | [] => []
  | c :: cs => natLE c.toNat ++ '-' :: encodeChars cs

/-- Fuel-bounded chunk-by-chunk decoding; any fuel at least the number of
chunks is enough. -/
def decodeCharsF : Nat → List Char → Option (List Char)
  | _, [] => some []
  | 0, _ :: _ => none
  | f + 1, c :: rest =>
    match parseChunk (c :: rest) with
    | some (v, rs) =>
      match decodeCharsF f rs with
      | some tail => some (Char.ofNat v :: tail)
      | none => none
    | none => none

/-- Modelled from the spec: the decoding side of the share-link codec
(`decompressFromEncodedURIComponent`); `none` models the library's null
result on malformed input. -/
def decodeChars (l : List Char) : Option (List Char) :=
  decodeCharsF l.length l

example : decodeChars (encodeChars "hi!".data) = some "hi!".data := rfl
example : encodeChars "".data = [] := rfl

theorem charVal_digitChar {k : Nat} (hk : k < 10) :
    charVal (Nat.digitChar k) = some k := by
  interval_cases k <;> decide

/-- Reading back an encoded digit run recovers the encoded number and
leaves the rest of the stream. -/
theorem parseChunk_natLEAux :
    ∀ (fuel n : Nat), n ≤ fuel → ∀ rest : List Char,
      parseChunk (natLEAux fuel n ++ '-' :: rest) = some (n, rest) := by
  intro fuel
  induction fuel with
  | zero =>
    intro n hn rest
    interval_cases n
    simp [natLEAux, parseChunk]
  | succ f ih =>
    intro n hn rest
    cases n with
    | zero => simp [natLEAux, parseChunk]
    | succ m =>
      have hmod : (m + 1) % 10 < 10 := Nat.mod_lt _ (by norm_num)
      have hcv := charVal_digitChar hmod
      have hnd : Nat.digitChar ((m + 1) % 10) ≠ '-' := by
        intro heq
        rw [heq] at hcv
        simp [charVal] at hcv
      have hdiv : (m + 1) / 10 ≤ f := by
        have := Nat.div_lt_self (Nat.succ_pos m) (by norm_num : 1 < 10)
        omega
      simp only [natLEAux, List.cons_append, parseChunk, if_neg hnd, hcv,
        List.append_eq, ih ((m + 1) / 10) hdiv rest]
      rw [Nat.mod_add_div]

/-- Decoding inverts encoding, given enough fuel. -/
theorem decodeCharsF_encodeChars :
    ∀ (fuel : Nat) (l : List Char), l.length ≤ fuel →
      decodeCharsF fuel (encodeChars l) = some l := by
  intro fuel
  induction fuel with
  | zero =>
    intro l hl
    rw [List.length_eq_zero.mp (Nat.le_zero.mp hl)]
    rfl
  | succ f ih =>
    intro l hl
    cases l with
    | nil => rfl
    | cons c cs =>
      have hpc : parseChunk (encodeChars (c :: cs)) =
          some (c.toNat, encodeChars cs) := by
        show parseChunk (natLE c.toNat ++ '-' :: encodeChars cs) = _
        exact parseChunk_natLEAux c.toNat c.toNat (Nat.le_refl _) _
      have hne : encodeChars (c :: cs) ≠ [] := by
        show natLE c.toNat ++ '-' :: encodeChars cs ≠ []
        simp
      rcases he : encodeChars (c :: cs) with _ | ⟨x, xs⟩
      · exact absurd he hne
      · rw [he] at hpc
        have hcs : cs.length ≤ f := by
          have := List.length_cons c cs
          omega
        simp only [decodeCharsF, hpc, ih cs hcs, Char.ofNat_toNat]

/-- Decoding inverts encoding. -/
theorem decodeChars_encodeChars (l : List Char) :
    decodeChars (encodeChars l) = some l := by
  have hlen : ∀ m : List Char, m.length ≤ (encodeChars m).length := by
    intro m
    induction m with
    | nil => simp [encodeChars]
    | cons c cs ih =>
      simp only [encodeChars, List.length_append, List.length_cons]
      omega
  exact decodeCharsF_encodeChars (encodeChars l).length l (hlen l)

/-- Modelled from the spec: `LZString.compressToEncodedURIComponent`, the
external library call `handleShare` uses to produce the `data` query
parameter. -/
def compressToEncodedURIComponent (s : String) : String :=
  String.mk (encodeChars s.data)

/-- Modelled from the spec: `LZString.decompressFromEncodedURIComponent`;
`none` models the library's null result on malformed input. -/
def decompressFromEncodedURIComponent (s : String) : Option String :=
  Option.map String.mk (decodeChars s.data)

/-- `handleShare`: the value written into the `data` query parameter of
the shareable link (the URL rewrite and clipboard copy carry this value
verbatim). -/
def handleShare (input : String) : String :=
  compressToEncodedURIComponent input

/-- The load-time effect: reads the `data` query parameter (`none` when
absent), and only a truthy parameter (`if (data)`) whose decompression is
truthy (`if (decompressed)`) is restored as the input; returns the
restored input, `none` when nothing is restored. -/
def loadFromParam : Option String → Option String
  | none => none
  | some d =>
    if d = "" then none
    else
      match decompressFromEncodedURIComponent d with
      | none => none
      | some t => if t = "" then none else some t

/-- Counterexample to C4: the empty input text round-trips to the empty
string, which the load effect's truthiness guards refuse to restore, so
it is not restored as the input. -/
theorem share_roundtrip_empty_counterexample :
    loadFromParam (some (handleShare "")) = none
  ∧ decompressFromEncodedURIComponent (handleShare "") = some "" :=
  ⟨rfl, rfl⟩

/-- C4 (amended): for every input text, decoding the `data` parameter
produced by `handleShare` reproduces the text exactly; the text is
restored as the input whenever it is nonempty (the empty text is dropped
by the load effect's truthiness guards). -/
theorem share_roundtrip_restores_input (s : String) :
    decompressFromEncodedURIComponent (handleShare s) = some s
  ∧ (s ≠ "" → loadFromParam (some (handleShare s)) = some s) := by
  have hrt : decompressFromEncodedURIComponent (handleShare s) = some s := by
    show Option.map String.mk (decodeChars (String.mk (encodeChars s.data)).data) =
      some s
    have hdata : (String.mk (encodeChars s.data)).data = encodeChars s.data := rfl
    rw [hdata, decodeChars_encodeChars]
    rfl
  refine ⟨hrt, fun hs => ?_⟩
  have hne : handleShare s ≠ "" := by
    intro h0
    have : decompressFromEncodedURIComponent "" = some s := by rw [← h0]; exact hrt
    have hnil : decompressFromEncodedURIComponent "" = some "" := rfl
    rw [hnil] at this
    exact hs (by injection this with h2; rw [h2])
  show loadFromParam (some (handleShare s)) = some s
  simp only [loadFromParam]
  rw [if_neg hne, hrt]
  show (if s = "" then none else some s) = some s
  rw [if_neg hs]

/-- Witness for the amended C4 at a concrete nonempty input. -/
theorem share_roundtrip_restores_input_witness :
    loadFromParam (some (handleShare "hi!")) = some "hi!" :=
  (share_roundtrip_restores_input "hi!").2 (by decide)

/-- `n` spaces. -/
def spaces (n : Nat) : String := String.mk (List.replicate n ' ')

/-- JSON string escaping for the serializer. -/
def escapeChar (c : Char) : String :=
  if c = '"' then "\\\""
  else if c = '\\' then "\\\\"
  else if c = '\n' then "\\n"
  else if c = '\t' then "\\t"
  else if c = '\r' then "\\r"
  else String.mk [c]

/-- A JSON string literal. -/
def quoteString (s : String) : String :=
  "\"" ++ String.join (s.data.map escapeChar) ++ "\""

mutual
/-- Modelled from the spec: `JSON.stringify(value, null, 2)`, the
two-space pretty-printer the handlers use via `setInput`. -/
def stringifyV : Nat → Json → String
  | _, Json.null => "null"
  | _, Json.bool b => if b then "true" else "false"
  | _, Json.num n => toString n
  | _, Json.str s => quoteString s
  | lvl, Json.arr xs =>
    match xs with
    | JsonList.nil => "[]"
    | JsonList.cons _ _ =>
      "[\n" ++ String.intercalate ",\n" (stringifyItems (lvl + 1) xs) ++
        "\n" ++ spaces (2 * lvl) ++ "]"
  | lvl, Json.obj kvs =>
    match kvs with
    | JsonProps.nil => "\x7b\x7d"
    | JsonProps.cons _ _ _ =>
      "\x7b\n" ++ String.intercalate ",\n" (stringifyProps (lvl + 1) kvs) ++
        "\n" ++ spaces (2 * lvl) ++ "\x7d"
/-- See `stringifyV`. -/
def stringifyItems : Nat → JsonList → List String
  | _, JsonList.nil => []
  | lvl, JsonList.cons x xs =>
    (spaces (2 * lvl) ++ stringifyV lvl x) :: stringifyItems lvl xs
/-- See `stringifyV`. -/
def stringifyProps : Nat → JsonProps → List String
  | _, JsonProps.nil => []
  | lvl, JsonProps.cons k v kvs =>
    (spaces (2 * lvl) ++ quoteString k ++ ": " ++ stringifyV lvl v) ::
      stringifyProps lvl kvs
end

/-- `JSON.stringify(value, null, 2)` at the document root. -/
def stringify2 (j : Json) : String := stringifyV 0 j

example : stringify2 (Json.obj (JsonProps.ofList [("id", Json.str "x")])) =
    "\x7b\n  \"id\": \"x\"\n\x7d" := rfl

/-- The outcome of the `fetch` call in `handleValidate`: a network error
(the promise rejects), a non-success HTTP status, a body that is not
JSON (`response.json()` rejects), or a JSON body. -/
inductive FetchOutcome where
  | networkError : String → FetchOutcome
  | httpError : String → FetchOutcome
  | okBadJson : String → FetchOutcome
  | ok : Json → FetchOutcome

/-- The external world a validation attempt interacts with: the network
(`fetch` by URL) and the `JSON.parse` builtin (result or thrown error
message).  Both are outside the repository and are parameters of the
model. -/
structure Env where
  fetch : String → FetchOutcome
  parseJson : String → Except String Json

/-- The URL branch of `handleValidate`: a rejected fetch, a non-ok status
(`Failed to fetch: statusText` thrown inside the inner try) and a body
parse failure are all re-thrown as `Failed to fetch manifest: …`. -/
def fetchStep : FetchOutcome → Except String Json
  | FetchOutcome.ok body => Except.ok body
  | FetchOutcome.networkError m =>
    Except.error ("Failed to fetch manifest: " ++ m)
  | FetchOutcome.httpError st =>
    Except.error ("Failed to fetch manifest: " ++ ("Failed to fetch: " ++ st))
  | FetchOutcome.okBadJson m =>
    Except.error ("Failed to fetch manifest: " ++ m)

/-- Modelled from the spec: JavaScript `String.prototype.trim`, dropping
leading and trailing whitespace. -/
def jsTrim (s : String) : String :=
  String.mk (((s.data.dropWhile Char.isWhitespace).reverse.dropWhile
    Char.isWhitespace).reverse)

/-- Character-list core of `jsStartsWith`. -/
def startsWithChars : List Char → List Char → Bool
  | _, [] => true
  | [], _ :: _ => false
  | c :: cs, p :: ps => c = p && startsWithChars cs ps

/-- Modelled from the spec: JavaScript `String.prototype.startsWith`. -/
def jsStartsWith (s p : String) : Bool := startsWithChars s.data p.data

/-- Whether the trimmed input is treated as a URL by `handleValidate`. -/
def isUrlInput (t : String) : Bool :=
  jsStartsWith t "http://" || jsStartsWith t "https://"

/-- The try-block of `handleValidate` up to obtaining `dataToValidate`:
empty input throws, a URL goes through `fetch`, anything else through
`JSON.parse` (whose error is re-thrown as `Invalid JSON format: …`). -/
def getDataToValidate (env : Env) (input : String) : Except String Json :=
  let t := jsTrim input
  if t = "" then Except.error "Please enter JSON content or a URL"
  else if isUrlInput t then fetchStep (env.fetch t)
  else
    match env.parseJson t with
    | Except.ok v => Except.ok v
    | Except.error m => Except.error ("Invalid JSON format: " ++ m)

/-- The catch-block of `handleValidate`: a thrown message becomes a
Failure result with a single `custom` issue at the root path. -/
def customFailure (msg : String) : VResult :=
  { success := false, data := none,
    error := some ⟨[{ code := "custom", path := [], message := msg,
                      keys := [] }]⟩,
    warning := none }

/-- The validation result `handleValidate` installs: `validate` of the
obtained data, or the normalized failure for any thrown error. -/
def handleValidateResult (env : Env) (input : String) : VResult :=
  match getDataToValidate env input with
  | Except.ok v => validate v
  | Except.error m => customFailure m

/-- The input text after a validation attempt: the JSON branch
pretty-prints the parsed value via `setInput`; the empty and URL branches
leave the input unchanged, as does a parse failure. -/
def updatedInput (env : Env) (input : String) : String :=
  let t := jsTrim input
  if t = "" then input
  else if isUrlInput t then input
  else
    match env.parseJson t with
    | Except.ok v => stringify2 v
    | Except.error _ => input

/-- The per-session UI state the handlers touch. -/
structure UiState where
  input : String
  validationResult : Option VResult
  isLoading : Bool
  isDragging : Bool
  isCopied : Bool

/-- The synchronous prefix of `handleValidate`: `setIsLoading(true);
setValidationResult(null);` — the previously displayed result is cleared
before any new result exists. -/
def handleValidateStart (s : UiState) : UiState :=
  { s with isLoading := true, validationResult := none }

/-- The completion of `handleValidate`: the result computed from the
submitted input is installed, the JSON branch pretty-prints the input,
and the finally-block clears the loading flag. -/
def handleValidateFinish (env : Env) (s : UiState) : UiState :=
  { s with input := updatedInput env s.input,
           validationResult := some (handleValidateResult env s.input),
           isLoading := false }

/-- A whole validation attempt, start to completion. -/
def handleValidateRun (env : Env) (s : UiState) : UiState :=
  handleValidateFinish env (handleValidateStart s)

/-- `handleDrop`: clears the drag highlight and, once the dropped file's
text is read, sets the input to the pretty-printed parse when the content
is JSON, and to the raw text otherwise. -/
def handleDrop (env : Env) (content : String) (s : UiState) : UiState :=
  match env.parseJson content with
  | Except.ok v => { s with input := stringify2 v, isDragging := false }
  | Except.error _ => { s with input := content, isDragging := false }

/-- A concrete environment for witnesses: the network is down and only
the text `\x7b\x7d` (an empty JSON object) parses. -/
def sampleEnv : Env :=
  { fetch := fun _ => FetchOutcome.networkError "offline",
    parseJson := fun s =>
      if s = "\x7b\x7d" then Except.ok (Json.obj JsonProps.nil)
      else Except.error "Unexpected token" }

/-- A concrete UI state for witnesses. -/
def emptyState : UiState :=
  { input := "", validationResult := none, isLoading := false,
    isDragging := false, isCopied := false }

/-- An error from the try-block is installed as a normalized failure. -/
theorem handleValidateResult_of_error {env : Env} {input : String}
    {m : String} (h : getDataToValidate env input = Except.error m) :
    handleValidateResult env input = customFailure m := by
  unfold handleValidateResult
  rw [h]

/-- C5: empty or whitespace-only input makes the validation attempt yield
Failure with exactly one issue, at the root path. -/
theorem empty_input_single_root_issue (env : Env) (input : String)
    (h : jsTrim input = "") :
    handleValidateResult env input =
      customFailure "Please enter JSON content or a URL"
  ∧ ∀ e, (handleValidateResult env input).error = some e →
      e.issues.length = 1 ∧ ∀ i ∈ e.issues, i.path = [] := by
  have hgd : getDataToValidate env input =
      Except.error "Please enter JSON content or a URL" := by
    unfold getDataToValidate
    rw [h]
    rfl
  have hr := handleValidateResult_of_error hgd
  refine ⟨hr, fun e he => ?_⟩
  rw [hr] at he
  simp only [customFailure, Option.some.injEq] at he
  rw [← he]
  exact ⟨rfl, by intro i hi; simp at hi; rw [hi]⟩

/-- Witness for C5 at a whitespace-only input. -/
theorem empty_input_single_root_issue_witness :
    handleValidateResult sampleEnv "   " =
      customFailure "Please enter JSON content or a URL" :=
  (empty_input_single_root_issue sampleEnv "   " (by decide)).1

/-- C6: a dropped file whose content parses as JSON sets the input to the
two-space re-serialization of the parsed value; otherwise the raw text is
kept. -/
theorem drop_formats_or_keeps_raw (env : Env) (content : String)
    (s : UiState) :
    (∀ v, env.parseJson content = Except.ok v →
      (handleDrop env content s).input = stringify2 v)
  ∧ (∀ m, env.parseJson content = Except.error m →
      (handleDrop env content s).input = content) := by
  constructor <;> intro x hx <;> unfold handleDrop <;> rw [hx]

/-- Witness for C6: a JSON file is pretty-printed with two-space
indentation, a non-JSON file is kept verbatim. -/
theorem drop_formats_or_keeps_raw_witness :
    (handleDrop sampleEnv "\x7b\x7d" emptyState).input = "\x7b\x7d"
  ∧ (handleDrop sampleEnv "nope" emptyState).input = "nope" :=
  ⟨(drop_formats_or_keeps_raw sampleEnv "\x7b\x7d" emptyState).1
      (Json.obj JsonProps.nil) rfl,
   (drop_formats_or_keeps_raw sampleEnv "nope" emptyState).2
      "Unexpected token" rfl⟩

/-- The uniform Failure shape of C7: success is false, no data, no
warning, and an error carrying a nonempty issue list. -/
def FailShape (r : VResult) : Prop :=
  r.success = false ∧ r.data = none ∧ r.warning = none ∧
    ∃ e, r.error = some e ∧ e.issues ≠ []

/-- Normalized thrown errors have the uniform Failure shape. -/
theorem customFailure_failShape (m : String) : FailShape (customFailure m) :=
  ⟨rfl, rfl, rfl,
   ⟨[{ code := "custom", path := [], message := m, keys := [] }]⟩,
   rfl, by simp⟩

/-- A failing `safeParse` always carries at least one issue. -/
theorem safeParse_error_nonempty {t : SType} {j : Json} {e : ZodError}
    (h : safeParse t j = Except.error e) : e.issues ≠ [] := by
  unfold safeParse at h
  rcases hpv : parseValue t j with ⟨iss, dd⟩
  rw [hpv] at h
  cases iss with
  | nil => simp at h
  | cons i more =>
    simp only [Except.error.injEq] at h
    rw [← h]
    simp

/-- Schema-violation failures have the uniform Failure shape. -/
theorem validate_failShape {j : Json}
    (h : (validate j).success = false) : FailShape (validate j) := by
  rcases hsp : safeParse manifestSchema j with e | d
  · have hv : validate j =
        { success := false, data := none, error := some e, warning := none } := by
      unfold validate; rw [hsp]
    rw [hv]
    exact ⟨rfl, rfl, rfl, e, rfl, safeParse_error_nonempty hsp⟩
  · exfalso
    rcases hst : strictSafeParse manifestSchema j with w | x <;>
      · unfold validate at h
        rw [hsp, hst] at h
        simp at h

/-- Reduces the try-block when the trimmed input is a nonempty
non-URL. -/
theorem getDataToValidate_json {env : Env} {input : String}
    (hne : jsTrim input ≠ "") (hu : isUrlInput (jsTrim input) = false) :
    getDataToValidate env input =
      (match env.parseJson (jsTrim input) with
       | Except.ok v => Except.ok v
       | Except.error m => Except.error ("Invalid JSON format: " ++ m)) := by
  unfold getDataToValidate
  rw [if_neg hne, hu]
  rfl

/-- Reduces the try-block when the trimmed input is a URL. -/
theorem getDataToValidate_url {env : Env} {input : String}
    (hne : jsTrim input ≠ "") (hu : isUrlInput (jsTrim input) = true) :
    getDataToValidate env input = fetchStep (env.fetch (jsTrim input)) := by
  unfold getDataToValidate
  rw [if_neg hne, hu]
  rfl

/-- C7: every failure source of a validation attempt — empty input,
network error, non-success HTTP status, a body or text that fails JSON
parsing, or a schema violation — yields a result of the same Failure
shape (success false, an issue list, no data, no warning). -/
theorem failures_normalized (env : Env) (input : String) :
    ((handleValidateResult env input).success = false →
      FailShape (handleValidateResult env input))
  ∧ (jsTrim input = "" → FailShape (handleValidateResult env input))
  ∧ (∀ m, isUrlInput (jsTrim input) = true →
      env.fetch (jsTrim input) = FetchOutcome.networkError m →
      FailShape (handleValidateResult env input))
  ∧ (∀ st, isUrlInput (jsTrim input) = true →
      env.fetch (jsTrim input) = FetchOutcome.httpError st →
      FailShape (handleValidateResult env input))
  ∧ (∀ m, isUrlInput (jsTrim input) = true →
      env.fetch (jsTrim input) = FetchOutcome.okBadJson m →
      FailShape (handleValidateResult env input))
  ∧ (∀ m, jsTrim input ≠ "" → isUrlInput (jsTrim input) = false →
      env.parseJson (jsTrim input) = Except.error m →
      FailShape (handleValidateResult env input))
  ∧ (∀ v, getDataToValidate env input = Except.ok v →
      (validate v).success = false →
      FailShape (handleValidateResult env input)) := by
  have hurl_ne : isUrlInput (jsTrim input) = true → jsTrim input ≠ "" := by
    intro hu h0
    rw [h0] at hu
    exact absurd hu (by decide)
  have hmain : (handleValidateResult env input).success = false →
      FailShape (handleValidateResult env input) := by
    intro h
    unfold handleValidateResult at h ⊢
    rcases hgd : getDataToValidate env input with m | v
    · exact customFailure_failShape m
    · rw [hgd] at h
      exact validate_failShape h
  refine ⟨hmain, ?_, ?_, ?_, ?_, ?_, ?_⟩
  · intro h
    have hgd : getDataToValidate env input =
        Except.error "Please enter JSON content or a URL" := by
      unfold getDataToValidate
      rw [h]
      rfl
    rw [handleValidateResult_of_error hgd]
    exact customFailure_failShape _
  · intro m hu hf
    have hgd : getDataToValidate env input =
        Except.error ("Failed to fetch manifest: " ++ m) := by
      rw [getDataToValidate_url (hurl_ne hu) hu, hf]
      rfl
    rw [handleValidateResult_of_error hgd]
    exact customFailure_failShape _
  · intro st hu hf
    have hgd : getDataToValidate env input =
        Except.error
          ("Failed to fetch manifest: " ++ ("Failed to fetch: " ++ st)) := by
      rw [getDataToValidate_url (hurl_ne hu) hu, hf]
      rfl
    rw [handleValidateResult_of_error hgd]
    exact customFailure_failShape _
  · intro m hu hf
    have hgd : getDataToValidate env input =
        Except.error ("Failed to fetch manifest: " ++ m) := by
      rw [getDataToValidate_url (hurl_ne hu) hu, hf]
      rfl
    rw [handleValidateResult_of_error hgd]
    exact customFailure_failShape _
  · intro m hne hu hp
    have hgd : getDataToValidate env input =
        Except.error ("Invalid JSON format: " ++ m) := by
      rw [getDataToValidate_json hne hu, hp]
    rw [handleValidateResult_of_error hgd]
    exact customFailure_failShape _
  · intro v hgd hv
    have hres : handleValidateResult env input = validate v := by
      unfold handleValidateResult
      rw [hgd]
    rw [hres]
    exact validate_failShape hv

/-- Witness for C7: a pasted text that fails JSON parsing is normalized
into the uniform Failure shape. -/
theorem failures_normalized_witness :
    FailShape (handleValidateResult sampleEnv "notjson") :=
  (failures_normalized sampleEnv "notjson").2.2.2.2.2.1 "Unexpected token"
    (by decide) (by decide) rfl

/-- Counterexample to C8: a state holding a previously displayed result
loses it at the very start of the attempt (`setValidationResult(null)`),
before any new result exists — the prior result is not left intact until
a new result supersedes it. -/
theorem prior_result_cleared_counterexample :
    (handleValidateStart
        { emptyState with
            validationResult := some (customFailure "previous") }).validationResult
      = none
  ∧ ({ emptyState with
        validationResult := some (customFailure "previous") } :
          UiState).validationResult
      = some (customFailure "previous") :=
  ⟨rfl, rfl⟩

/-- C8 (amended): a validation attempt is independent — its installed
result depends only on the submitted input and the environment, not on
any prior result — and no failure is fatal: every attempt completes with
an installed result and a cleared loading flag, leaving the drag and
clipboard flags intact.  However the previously displayed result is
cleared at the start of the attempt, before the new result exists. -/
theorem attempt_independent_and_total (env : Env) (s : UiState) :
    (handleValidateStart s).validationResult = none
  ∧ (handleValidateStart s).isLoading = true
  ∧ (handleValidateStart s).input = s.input
  ∧ (handleValidateStart s).isDragging = s.isDragging
  ∧ (handleValidateStart s).isCopied = s.isCopied
  ∧ (handleValidateRun env s).validationResult =
      some (handleValidateResult env s.input)
  ∧ (handleValidateRun env s).isLoading = false
  ∧ (handleValidateRun env s).isDragging = s.isDragging
  ∧ (handleValidateRun env s).isCopied = s.isCopied :=
  ⟨rfl, rfl, rfl, rfl, rfl, rfl, rfl, rfl, rfl⟩

end Stremio
